import Mathlib

/-! Verification of the theme packaging pipeline.

This file gives a shallow embedding of the theme build script (`buildTheme`):
a three-stage pipeline that

1. clears and repopulates a staged output directory (`theme/`) from a static
   template tree (`theme-src/`),
2. normalizes the compiled bundle files found in `dist/assets` into the staged
   `theme/assets` directory (`.css` files to the fixed name `index.css`,
   `.js` files to the fixed name `index.js`, everything else under its
   original name), and
3. serializes the staged directory into a single archive (`theme.zip`) whose
   entry paths are relative to the staged root (the `false` second argument of
   `archive.directory` means no root-name prefix).

Directory trees are modelled as snapshots: lists of (relative path, content)
pairs, where a relative path is a list of path segments and file contents are
modelled as strings (byte-for-byte equality becomes string equality).
Filesystem operations of the script (`fs.emptyDir`, `fs.copy`, `fs.readdir`,
per-file copies, `archive.directory`) are modelled as the corresponding pure
snapshot transformations.  The process-level state (the two read-only inputs,
the staged directory, the archive file, the error channel) is a record `FS`,
and `buildTheme` is a function from `FS` to the final `FS` together with an
optional explicit exit code (`some 1` models `process.exit(1)`; `none` models
the script reaching the end of the `try` block, i.e. a zero exit).
-/

namespace ThemeBuild

/-- A path relative to a directory root, as a list of path segments. -/
abbrev RelPath := List String

/-- A directory-tree snapshot: the relative paths of the files it contains,
with their contents.  This is the spec's data model for `TemplateTree`
("paths + file contents"). -/
abbrev Snapshot := List (RelPath × String)

/-- Model of JavaScript `String.prototype.endsWith`, used by the script as
`file.endsWith('.css')` / `file.endsWith('.js')`: a direct suffix test on the
character sequence. -/
def jsEndsWith (s suff : String) : Bool := suff.data.isSuffixOf s.data

/-- Read the file stored at path `p` in a snapshot, if any. -/
def Snapshot.getFile : Snapshot → RelPath → Option String
  | [], _ => none
  | e :: s, p => if e.1 = p then some e.2 else Snapshot.getFile s p

/-- Write content `c` at path `p` in a snapshot, replacing any file already
stored there.  This models a single `fs.copy(sourceFile, targetFile)`, whose
default is to overwrite the target. -/
def Snapshot.setFile : Snapshot → RelPath → String → Snapshot
  | [], p, c => [(p, c)]
  | e :: s, p, c => if e.1 = p then Snapshot.setFile s p c else e :: Snapshot.setFile s p c

/-- Recursively copy every file of `src` into `dst`, overwriting on path
collision.  This models `fs.copy(srcDir, dstDir)` for directories. -/
def Snapshot.copyInto (dst src : Snapshot) : Snapshot :=
  src.foldl (fun a e => Snapshot.setFile a e.1 e.2) dst

/-- Model of `fs.emptyDir(dir)`: afterwards the directory exists and is empty,
whatever was there before (the prior contents, or the directory's absence, are
irrelevant). -/
def emptyDir (_prior : Option Snapshot) : Option Snapshot := some []

/-- The paths stored in a snapshot. -/
def Snapshot.paths (s : Snapshot) : List RelPath := s.map Prod.fst

theorem getFile_setFile_same (s : Snapshot) (p : RelPath) (c : String) :
    Snapshot.getFile (Snapshot.setFile s p c) p = some c := by
  induction s with
  | nil => simp [Snapshot.setFile, Snapshot.getFile]
  | cons e s ih =>
    by_cases h : e.1 = p
    · simpa [Snapshot.setFile, h] using ih
    · simp [Snapshot.setFile, Snapshot.getFile, h, ih]

theorem getFile_setFile_ne (s : Snapshot) (p q : RelPath) (c : String) (h : q ≠ p) :
    Snapshot.getFile (Snapshot.setFile s p c) q = Snapshot.getFile s q := by
  induction s with
  | nil => simp [Snapshot.setFile, Snapshot.getFile, Ne.symm h]
  | cons e s ih =>
    by_cases he : e.1 = p
    · simp [Snapshot.setFile, Snapshot.getFile, he, Ne.symm h, ih]
    · by_cases heq : e.1 = q
      · simp [Snapshot.setFile, Snapshot.getFile, he, heq, h]
      · simp [Snapshot.setFile, Snapshot.getFile, he, heq, ih]

theorem mem_paths_setFile (s : Snapshot) (p q : RelPath) (c : String)
    (h : q ∈ Snapshot.paths (Snapshot.setFile s p c)) :
    q ∈ Snapshot.paths s ∨ q = p := by
  induction s with
  | nil =>
    simp [Snapshot.setFile, Snapshot.paths] at h
    exact Or.inr h
  | cons e s ih =>
    by_cases he : e.1 = p
    · simp only [Snapshot.setFile, he, if_pos rfl] at h
      rcases ih h with h' | h'
      · exact Or.inl (by simp [Snapshot.paths]; right; simpa [Snapshot.paths] using h')
      · exact Or.inr h'
    · simp only [Snapshot.setFile, if_neg he, Snapshot.paths, List.map_cons,
        List.mem_cons] at h
      rcases h with h | h
      · exact Or.inl (by simp [Snapshot.paths, h])
      · rcases ih h with h' | h'
        · exact Or.inl (by simp [Snapshot.paths]; right; simpa [Snapshot.paths] using h')
        · exact Or.inr h'

theorem nodup_paths_setFile (s : Snapshot) (p : RelPath) (c : String)
    (h : (Snapshot.paths s).Nodup) : (Snapshot.paths (Snapshot.setFile s p c)).Nodup := by
  induction s with
  | nil => simp [Snapshot.setFile, Snapshot.paths]
  | cons e s ih =>
    simp only [Snapshot.paths, List.map_cons, List.nodup_cons] at h
    by_cases he : e.1 = p
    · simpa [Snapshot.setFile, he] using ih h.2
    · simp only [Snapshot.setFile, if_neg he, Snapshot.paths, List.map_cons, List.nodup_cons]
      refine ⟨fun hmem => ?_, ih h.2⟩
      rcases mem_paths_setFile s p e.1 c hmem with h' | h'
      · exact h.1 (by simpa [Snapshot.paths] using h')
      · exact he h'

theorem nodup_paths_copyInto (dst src : Snapshot) (h : (Snapshot.paths dst).Nodup) :
    (Snapshot.paths (Snapshot.copyInto dst src)).Nodup := by
  induction src generalizing dst with
  | nil => simpa [Snapshot.copyInto] using h
  | cons e src ih =>
    simpa [Snapshot.copyInto, List.foldl_cons] using
      ih (Snapshot.setFile dst e.1 e.2) (nodup_paths_setFile dst e.1 e.2 h)

theorem mem_iff_getFile (s : Snapshot) (hs : (Snapshot.paths s).Nodup)
    (p : RelPath) (c : String) : (p, c) ∈ s ↔ Snapshot.getFile s p = some c := by
  induction s with
  | nil => simp [Snapshot.getFile]
  | cons e s ih =>
    simp only [Snapshot.paths, List.map_cons, List.nodup_cons] at hs
    obtain ⟨h1, h2⟩ := hs
    by_cases he : e.1 = p
    · simp only [Snapshot.getFile, if_pos he, List.mem_cons, Option.some.injEq]
      constructor
      · rintro (h | h)
        · subst h; rfl
        · exfalso
          rw [he] at h1
          exact h1 (by simpa [Snapshot.paths] using List.mem_map_of_mem Prod.fst h)
      · intro h
        left
        subst he
        subst h
        rfl
    · simp only [Snapshot.getFile, if_neg he, List.mem_cons]
      rw [← ih h2]
      constructor
      · rintro (h | h)
        · exfalso; rw [← h] at he; exact he rfl
        · exact h
      · exact Or.inr

/-- One iteration of the script's `for (const file of distFiles)` loop, acting
on the staged snapshot: a name ending in `.css` is copied to the fixed target
`assets/index.css`, a name ending in `.js` to the fixed target
`assets/index.js`, and any other name is copied into `assets/` under its
original filename.  Each copy overwrites an existing file at its target. -/
def normalizeStep (acc : Snapshot) (e : String × String) : Snapshot :=
  if jsEndsWith e.1 ".css" then Snapshot.setFile acc ["assets", "index.css"] e.2
  else if jsEndsWith e.1 ".js" then Snapshot.setFile acc ["assets", "index.js"] e.2
  else Snapshot.setFile acc ["assets", e.1] e.2

/-- The whole asset-normalization loop: fold `normalizeStep` over the listing
of `dist/assets` (a flat list of (filename, content) pairs in enumeration
order), starting from the staged snapshot left by the template copy. -/
def normalizeAssets (staged : Snapshot) (dist : List (String × String)) : Snapshot :=
  dist.foldl normalizeStep staged

/-- The content of the last write to a fixed target among a list of competing
source entries: the last entry's content if there is one, otherwise the
default (the value already stored at the target). -/
def lastWrite (entries : List (String × String)) (dflt : Option String) : Option String :=
  match entries.getLast? with
  | some e => some e.2
  | none => dflt

theorem ne_index_css_of_not_css (g : String) (h : jsEndsWith g ".css" = false) :
    g ≠ "index.css" := by
  intro hg
  rw [hg] at h
  exact absurd h (by decide)

theorem ne_index_js_of_not_js (g : String) (h : jsEndsWith g ".js" = false) :
    g ≠ "index.js" := by
  intro hg
  rw [hg] at h
  exact absurd h (by decide)

theorem nodup_paths_normalizeAssets (staged : Snapshot) (dist : List (String × String))
    (h : (Snapshot.paths staged).Nodup) :
    (Snapshot.paths (normalizeAssets staged dist)).Nodup := by
  induction dist generalizing staged with
  | nil => simpa [normalizeAssets] using h
  | cons e dist ih =>
    have hstep : (Snapshot.paths (normalizeStep staged e)).Nodup := by
      unfold normalizeStep
      split
      · exact nodup_paths_setFile _ _ _ h
      · split
        · exact nodup_paths_setFile _ _ _ h
        · exact nodup_paths_setFile _ _ _ h
    simpa [normalizeAssets, List.foldl_cons] using ih (normalizeStep staged e) hstep

/-- What ends up at the fixed target `assets/index.css`: the content of the
last `.css` file in enumeration order, or the pre-existing file if the listing
has no `.css` file. -/
theorem normalize_getFile_css (staged : Snapshot) (dist : List (String × String)) :
    Snapshot.getFile (normalizeAssets staged dist) ["assets", "index.css"] =
      lastWrite (dist.filter (fun e => jsEndsWith e.1 ".css"))
        (Snapshot.getFile staged ["assets", "index.css"]) := by
  induction dist using List.reverseRecOn with
  | nil => simp [normalizeAssets, lastWrite]
  | append_singleton l e ih =>
    rw [normalizeAssets, List.foldl_append]
    by_cases hcss : jsEndsWith e.1 ".css" = true
    · simp only [List.foldl_cons, List.foldl_nil]
      rw [show normalizeStep (List.foldl normalizeStep staged l) e =
          Snapshot.setFile (List.foldl normalizeStep staged l) ["assets", "index.css"] e.2 by
        simp [normalizeStep, hcss]]
      rw [getFile_setFile_same]
      rw [List.filter_append, lastWrite]
      simp [hcss, List.getLast?_concat]
    · simp only [Bool.not_eq_true] at hcss
      have hne : Snapshot.getFile (normalizeStep (List.foldl normalizeStep staged l) e)
          ["assets", "index.css"] =
          Snapshot.getFile (List.foldl normalizeStep staged l) ["assets", "index.css"] := by
        unfold normalizeStep
        rw [hcss]
        simp only [Bool.false_eq_true, if_false]
        split
        · exact getFile_setFile_ne _ _ _ _ (by simp)
        · exact getFile_setFile_ne _ _ _ _
            (fun hh => ne_index_css_of_not_css e.1 hcss (by simpa using hh.symm))
      simp only [List.foldl_cons, List.foldl_nil]
      rw [hne, ← normalizeAssets, ih]
      rw [List.filter_append]
      simp [hcss, lastWrite]

/-- What ends up at the fixed target `assets/index.js`: the content of the
last `.js` file in enumeration order, or the pre-existing file if the listing
has no `.js` file. -/
theorem normalize_getFile_js (staged : Snapshot) (dist : List (String × String)) :
    Snapshot.getFile (normalizeAssets staged dist) ["assets", "index.js"] =
      lastWrite (dist.filter (fun e => !jsEndsWith e.1 ".css" && jsEndsWith e.1 ".js"))
        (Snapshot.getFile staged ["assets", "index.js"]) := by
  induction dist using List.reverseRecOn with
  | nil => simp [normalizeAssets, lastWrite]
  | append_singleton l e ih =>
    rw [normalizeAssets, List.foldl_append]
    simp only [List.foldl_cons, List.foldl_nil]
    by_cases hcss : jsEndsWith e.1 ".css" = true
    · have hne : Snapshot.getFile (normalizeStep (List.foldl normalizeStep staged l) e)
          ["assets", "index.js"] =
          Snapshot.getFile (List.foldl normalizeStep staged l) ["assets", "index.js"] := by
        unfold normalizeStep
        rw [hcss]
        simp only [if_true]
        exact getFile_setFile_ne _ _ _ _ (by simp)
      rw [hne, ← normalizeAssets, ih, List.filter_append]
      simp [hcss, lastWrite]
    · simp only [Bool.not_eq_true] at hcss
      by_cases hjs : jsEndsWith e.1 ".js" = true
      · rw [show normalizeStep (List.foldl normalizeStep staged l) e =
            Snapshot.setFile (List.foldl normalizeStep staged l) ["assets", "index.js"] e.2 by
          simp [normalizeStep, hcss, hjs]]
        rw [getFile_setFile_same, List.filter_append, lastWrite]
        simp [hcss, hjs, List.getLast?_concat]
      · simp only [Bool.not_eq_true] at hjs
        have hne : Snapshot.getFile (normalizeStep (List.foldl normalizeStep staged l) e)
            ["assets", "index.js"] =
            Snapshot.getFile (List.foldl normalizeStep staged l) ["assets", "index.js"] := by
          unfold normalizeStep
          rw [hcss, hjs]
          simp only [Bool.false_eq_true, if_false]
          exact getFile_setFile_ne _ _ _ _
            (fun hh => ne_index_js_of_not_js e.1 hjs (by simpa using hh.symm))
        rw [hne, ← normalizeAssets, ih, List.filter_append]
        simp [hcss, hjs, lastWrite]

/-- What ends up at `assets/g` for a name `g` that ends in neither `.css` nor
`.js`: the content of the last listed file named `g`, or the pre-existing file
(e.g. one placed by the template copy) if no listed file is named `g`. -/
theorem normalize_getFile_other (staged : Snapshot) (dist : List (String × String))
    (g : String) (hcss : jsEndsWith g ".css" = false) (hjs : jsEndsWith g ".js" = false) :
    Snapshot.getFile (normalizeAssets staged dist) ["assets", g] =
      lastWrite (dist.filter (fun e => e.1 = g)) (Snapshot.getFile staged ["assets", g]) := by
  induction dist using List.reverseRecOn with
  | nil => simp [normalizeAssets, lastWrite]
  | append_singleton l e ih =>
    rw [normalizeAssets, List.foldl_append]
    simp only [List.foldl_cons, List.foldl_nil]
    by_cases heg : e.1 = g
    · rw [show normalizeStep (List.foldl normalizeStep staged l) e =
          Snapshot.setFile (List.foldl normalizeStep staged l) ["assets", g] e.2 by
        simp [normalizeStep, heg, hcss, hjs]]
      rw [getFile_setFile_same, List.filter_append, lastWrite]
      simp [heg, List.getLast?_concat]
    · have hne : Snapshot.getFile (normalizeStep (List.foldl normalizeStep staged l) e)
          ["assets", g] =
          Snapshot.getFile (List.foldl normalizeStep staged l) ["assets", g] := by
        unfold normalizeStep
        split
        · exact getFile_setFile_ne _ _ _ _
            (fun hh => ne_index_css_of_not_css g hcss (by simpa using hh))
        · split
          · exact getFile_setFile_ne _ _ _ _
              (fun hh => ne_index_js_of_not_js g hjs (by simpa using hh))
          · exact getFile_setFile_ne _ _ _ _
              (fun hh => heg (Eq.symm (by simpa using hh)))
      rw [hne, ← normalizeAssets, ih, List.filter_append]
      simp [heg, lastWrite]

/-- A path `assets/g` where `g` ends in `.css` or `.js` but is not one of the
two fixed targets is never written by the loop: a `.css` source goes to
`index.css`, a `.js` source to `index.js`, and an "other" source has a name
ending in neither. -/
theorem normalize_getFile_untouched (staged : Snapshot) (dist : List (String × String))
    (g : String) (hg : jsEndsWith g ".css" = true ∨ jsEndsWith g ".js" = true)
    (h1 : g ≠ "index.css") (h2 : g ≠ "index.js") :
    Snapshot.getFile (normalizeAssets staged dist) ["assets", g] =
      Snapshot.getFile staged ["assets", g] := by
  induction dist using List.reverseRecOn with
  | nil => simp [normalizeAssets]
  | append_singleton l e ih =>
    rw [normalizeAssets, List.foldl_append]
    simp only [List.foldl_cons, List.foldl_nil]
    have hne : Snapshot.getFile (normalizeStep (List.foldl normalizeStep staged l) e)
        ["assets", g] =
        Snapshot.getFile (List.foldl normalizeStep staged l) ["assets", g] := by
      unfold normalizeStep
      split
      · exact getFile_setFile_ne _ _ _ _ (fun hh => h1 (by simpa using hh))
      · rename_i hec
        split
        · exact getFile_setFile_ne _ _ _ _ (fun hh => h2 (by simpa using hh))
        · rename_i hej
          refine getFile_setFile_ne _ _ _ _ (fun hh => ?_)
          have hge : g = e.1 := by simpa using hh
          rcases hg with hg | hg
          · rw [hge] at hg
            exact hec hg
          · rw [hge] at hg
            exact hej hg
    rw [hne, ← normalizeAssets, ih]

/-- A name ending in `.js` cannot also end in `.css`: if both character
sequences were suffixes of the same name, one would be a suffix of the other,
which neither is.  Hence the script's `else if` never hides a `.css` file, and
filtering on the `.js` branch condition is the same as filtering on the `.js`
extension alone. -/
theorem not_css_of_js (s : String) (h : jsEndsWith s ".js" = true) :
    jsEndsWith s ".css" = false := by
  by_contra hc
  simp only [Bool.not_eq_false] at hc
  have h1 : ".js".data <:+ s.data := by
    rw [← List.isSuffixOf_iff_suffix]
    exact h
  have h2 : ".css".data <:+ s.data := by
    rw [← List.isSuffixOf_iff_suffix]
    exact hc
  rcases List.suffix_or_suffix_of_suffix h1 h2 with h3 | h3
  · exact absurd h3 (by decide)
  · exact absurd h3 (by decide)

/-- Filtering the build-output listing on the `.js` branch of the loop (`not
.css and .js`) is the same as filtering on names ending in `.js`. -/
theorem filter_js_eq (dist : List (String × String)) :
    dist.filter (fun e => !jsEndsWith e.1 ".css" && jsEndsWith e.1 ".js") =
      dist.filter (fun e => jsEndsWith e.1 ".js") := by
  apply List.filter_congr
  intro a _
  by_cases h : jsEndsWith a.1 ".js" = true
  · rw [h, not_css_of_js a.1 h]
    rfl
  · simp only [Bool.not_eq_true] at h
    rw [h]
    simp

/-- In a listing with no duplicate filenames (a directory listing), the files
named `g` are exactly the single entry `(g, c)` when `(g, c)` is listed. -/
theorem filter_name_eq_of_nodup (dist : List (String × String)) (g c : String)
    (hnd : (dist.map Prod.fst).Nodup) (hmem : (g, c) ∈ dist) :
    dist.filter (fun e => e.1 = g) = [(g, c)] := by
  induction dist with
  | nil => cases hmem
  | cons a dist ih =>
    simp only [List.map_cons, List.nodup_cons] at hnd
    rcases List.mem_cons.mp hmem with h | h
    · subst h
      rw [List.filter_cons]
      simp only [decide_eq_true_eq, decide_True, if_pos]
      rw [List.filter_eq_nil_iff.mpr, List.cons.injEq]
      · exact ⟨rfl, rfl⟩
      · intro e he
        simp only [decide_eq_true_eq]
        intro hg
        have hmm : e.1 ∈ dist.map Prod.fst := List.mem_map_of_mem Prod.fst he
        rw [hg] at hmm
        exact hnd.1 hmm
    · have hag : a.1 ≠ g := by
        intro hg
        exact hnd.1 (by simpa [hg] using List.mem_map_of_mem Prod.fst h)
      rw [List.filter_cons]
      simp only [decide_eq_true_eq, hag, if_false]
      exact ih hnd.2 h

/-- Model of `archive.directory(dir, destName)`: every file of the snapshot
becomes an archive entry.  With `none` (the script's `false` second argument)
the entry path is the file's path relative to the directory root; with
`some d` the root name `d` would be prefixed. -/
def archiveDirectory (s : Snapshot) (destName : Option String) : List (RelPath × String) :=
  match destName with
  | none => s
  | some d => s.map (fun e => (d :: e.1, e.2))

/-- Diagnostic printed by the script when the template tree is missing
(`console.error('theme-src directory not found')`). -/
def themeSrcMissingMessage : String := "theme-src directory not found"

/-- The fixed relative location of the build-output directory. -/
def distAssetsPath : String := "dist/assets"

/-- Diagnostic printed by the top-level handler when `fs.readdir` rejects
because `dist/assets` does not exist: `console.error('Error building theme:',
err)` where `err` is the ENOENT error naming the scanned path. -/
def missingDistMessage : String :=
  "Error building theme: Error: ENOENT: no such file or directory, scandir " ++ distAssetsPath

/-- The process-level state the script interacts with: the two read-only
inputs (`theme-src` and `dist/assets`, `none` when the directory is absent),
the staged output directory `theme`, the archive file `theme.zip` (its entry
list, `none` when absent), and the error channel (stderr lines, oldest
first). -/
structure FS where
  templateSrc : Option Snapshot
  distAssets : Option (List (String × String))
  theme : Option Snapshot
  themeZip : Option (List (RelPath × String))
  errLog : List String
deriving DecidableEq, Repr

/-- The Stager stage of the pipeline as the spec carves it out:
`fs.emptyDir(theme)` followed by `fs.copy(theme-src, theme)` — clear (or
create) the output directory, then copy the template tree into the now-empty
directory. -/
def stageTemplate (tmpl : Snapshot) (prior : Option Snapshot) : Option Snapshot :=
  let cleared := emptyDir prior
  some (Snapshot.copyInto (cleared.getD []) tmpl)

/-- The whole script, line by line.  Returns the final state together with
`some 1` when the script calls `process.exit(1)` and `none` when the `try`
block runs to the end (the process later exits 0).  Note the source order:
`fs.emptyDir(theme)` runs before the `fs.existsSync(theme-src)` check, so the
staged directory is cleared even when the template tree is missing.  A missing
`dist/assets` makes `fs.readdir` reject; the rejection is caught by the
`catch` block, which logs and exits 1 — at that point the template has already
been copied but no archive has been written. -/
def buildTheme (s : FS) : FS × Option Nat :=
  -- await fs.emptyDir(path.join(rootDir, 'theme'))
  let s1 : FS := { s with theme := emptyDir s.theme }
  -- if (!fs.existsSync(path.join(rootDir, 'theme-src'))) { console.error(...); process.exit(1) }
  match s1.templateSrc with
  | none => ({ s1 with errLog := s1.errLog ++ [themeSrcMissingMessage] }, some 1)
  | some tmpl =>
    -- await fs.copy(path.join(rootDir, 'theme-src'), path.join(rootDir, 'theme'))
    let s2 : FS := { s1 with theme := some (Snapshot.copyInto ((emptyDir s.theme).getD []) tmpl) }
    -- await fs.ensureDir(path.join(rootDir, 'theme/assets')): no file-level effect
    -- const distFiles = await fs.readdir(path.join(rootDir, 'dist/assets'))
    match s2.distAssets with
    | none => ({ s2 with errLog := s2.errLog ++ [missingDistMessage] }, some 1)
    | some dist =>
      -- for (const file of distFiles) { ... }
      let staged := normalizeAssets (Snapshot.copyInto ((emptyDir s.theme).getD []) tmpl) dist
      let s3 : FS := { s2 with theme := some staged }
      -- archive.directory(path.join(rootDir, 'theme'), false); await archive.finalize()
      let s4 : FS := { s3 with themeZip := some (archiveDirectory staged none) }
      (s4, none)

/-! Event model of the archiving stage's completion signaling.

The script registers `output.on('close', () => console.log('Theme package
created successfully!'))`, pipes the archive into the output stream, and then
`await archive.finalize()`.  Per the stream semantics of the archiving
library, `finalize()`'s promise resolves once the archive data has been
written out; the write stream's `close` event is delivered on the event loop
after the stream finishes, i.e. after the awaited `finalize()` has resumed the
async function, which then runs to the end of its body and returns.  The
trace below lists those four observable events of one successful run in
order. -/

/-- Observable events of the archiving stage. -/
inductive ArchiveEvent where
  | finalizeResolved
  | controlReturned
  | outputClosed
  | successLogged
deriving DecidableEq, Repr

/-- The body of the `output.on('close', ...)` handler: log the success
message. -/
def closeHandlerEvents : List ArchiveEvent := [ArchiveEvent.successLogged]

/-- The event trace of a successful run of the archiving stage: the awaited
`finalize()` resolves, the async function resumes and returns, and only then
is the output stream's `close` event delivered, running the registered
handler. -/
def archiveStageTrace : List ArchiveEvent :=
  [ArchiveEvent.finalizeResolved, ArchiveEvent.controlReturned] ++
    (ArchiveEvent.outputClosed :: closeHandlerEvents)

/-- `a` occurs strictly before `b` in the trace `t`. -/
def occursBefore (t : List ArchiveEvent) (a b : ArchiveEvent) : Prop :=
  t.indexOf a < t.indexOf b

instance (t : List ArchiveEvent) (a b : ArchiveEvent) : Decidable (occursBefore t a b) :=
  inferInstanceAs (Decidable (t.indexOf a < t.indexOf b))

/-! Fault-routing model of the error-propagation policy.

Each place the script can fail is classified by the context in which the
fault is raised.  JavaScript's `try`/`catch` in an async function catches
exactly the faults raised synchronously in the `try` block and the rejections
of promises awaited in it.  A `throw` inside an event-listener callback (the
script's `archive.on('error', err => { throw err })`) unwinds the emitter's
call stack, not the async function's, and an `error` event on a stream with no
registered listener (the script never registers one on `output`) crashes the
process directly; neither reaches the script's `catch` block, which is the
single top-level handler that logs `'Error building theme:'` and calls
`process.exit(1)`. -/

/-- The context in which a fault surfaces. -/
inductive RaiseContext where
  | awaitedInTry
  | listenerCallback
  | unlistenedStreamEvent
deriving DecidableEq, Repr

/-- The places a run of the script can fail. -/
inductive FaultPoint where
  | emptyThemeDir
  | copyTemplate
  | ensureAssetsDir
  | readDistDir
  | copyAsset
  | archiveEmitterError
  | outputStreamWriteError
deriving DecidableEq, Repr

/-- The raising context of each fault point, read off the source: the five
filesystem operations are awaited inside the `try` block; an archive `error`
event runs the registered listener, whose body is `throw err`; the output
write stream has no `error` listener at all. -/
def contextOf : FaultPoint → RaiseContext
  | FaultPoint.emptyThemeDir => RaiseContext.awaitedInTry
  | FaultPoint.copyTemplate => RaiseContext.awaitedInTry
  | FaultPoint.ensureAssetsDir => RaiseContext.awaitedInTry
  | FaultPoint.readDistDir => RaiseContext.awaitedInTry
  | FaultPoint.copyAsset => RaiseContext.awaitedInTry
  | FaultPoint.archiveEmitterError => RaiseContext.listenerCallback
  | FaultPoint.outputStreamWriteError => RaiseContext.unlistenedStreamEvent

/-- Whether a fault reaches the script's `catch` block (the single top-level
handler): only faults surfacing through an expression awaited in the `try`
block do. -/
def reachesTopHandler (fp : FaultPoint) : Bool :=
  match contextOf fp with
  | RaiseContext.awaitedInTry => true
  | RaiseContext.listenerCallback => false
  | RaiseContext.unlistenedStreamEvent => false

/-- If `lastWrite` over a list of entries with no pre-existing file yields a
value, some listed entry carries that value. -/
theorem lastWrite_eq_some (entries : List (String × String)) (c : String)
    (h : lastWrite entries none = some c) : ∃ e ∈ entries, e.2 = c := by
  unfold lastWrite at h
  split at h
  · rename_i e hl
    exact ⟨e, List.mem_of_getLast?_eq_some hl, by injection h⟩
  · exact absurd h (by simp)

/-- The template tree of the spec's worked scenario: `layout/theme.liquid`
plus an (empty) `assets/` directory. -/
def demoTmpl : Snapshot := [(["layout", "theme.liquid"], "LIQUID")]

/-- The build output of the spec's worked scenario. -/
def demoDist : List (String × String) :=
  [("bundle.a1b2.css", "CSS"), ("bundle.a1b2.js", "JS"), ("logo.png", "PNG")]

/-- A starting filesystem for the spec's worked scenario. -/
def demoFS : FS :=
  { templateSrc := some demoTmpl, distAssets := some demoDist,
    theme := none, themeZip := none, errLog := [] }

/-- A starting filesystem where the template tree is missing but a stale
staged-output directory survives from an earlier run. -/
def stalePrior : FS :=
  { templateSrc := none, distAssets := some [],
    theme := some [(["old.txt"], "stale")],
    themeZip := none, errLog := [] }

/-- A starting filesystem where the build output is missing and a stale
archive survives from an earlier run. -/
def noDistFS : FS :=
  { templateSrc := some demoTmpl, distAssets := none, theme := none,
    themeZip := some [([ "stale.txt" ], "old")], errLog := [] }

/-- C1, counterexample: with the template tree missing and a nonempty
pre-existing staged-output directory, the pipeline does exit non-zero, but the
staged directory's contents after the run differ from its contents before —
the script runs `fs.emptyDir('theme')` before the `fs.existsSync('theme-src')`
check, so the failure does not abort before output is touched. -/
theorem missing_template_staged_not_preserved :
    (buildTheme stalePrior).2 = some 1 ∧
      (buildTheme stalePrior).1.theme ≠ stalePrior.theme := by
  decide

/-- C1, amended: if the template-tree path does not exist, the pipeline exits
non-zero with the diagnostic and never touches the archive, but the
staged-output directory has already been emptied by the time of the check, so
a pre-existing staged directory ends the run empty rather than as it was. -/
theorem missing_template_exits_nonzero_after_clearing (s : FS)
    (h : s.templateSrc = none) :
    (buildTheme s).2 = some 1 ∧ (buildTheme s).1.theme = some [] ∧
      (buildTheme s).1.themeZip = s.themeZip ∧
      (buildTheme s).1.errLog = s.errLog ++ [themeSrcMissingMessage] := by
  simp [buildTheme, emptyDir, h]

/-- Witness for the amended C1 at the concrete stale state. -/
theorem missing_template_exits_nonzero_after_clearing_witness :
    (buildTheme stalePrior).2 = some 1 ∧ (buildTheme stalePrior).1.theme = some [] ∧
      (buildTheme stalePrior).1.themeZip = stalePrior.themeZip ∧
      (buildTheme stalePrior).1.errLog = stalePrior.errLog ++ [themeSrcMissingMessage] :=
  missing_template_exits_nonzero_after_clearing stalePrior rfl

/-- C2: the Asset Normalizer classifies every enumerated BuildOutput entry by
extension.  At the fixed target `assets/index.css` survives exactly the last
`.css` file in enumeration order (overwriting whatever was there); at
`assets/index.js` the last `.js` file; and a name `g` with neither extension
is copied to `assets/g` under its original name (again last write wins, the
pre-existing file surviving only if no entry is named `g`). -/
theorem normalizer_classification (staged : Snapshot) (dist : List (String × String)) :
    Snapshot.getFile (normalizeAssets staged dist) ["assets", "index.css"] =
        lastWrite (dist.filter (fun e => jsEndsWith e.1 ".css"))
          (Snapshot.getFile staged ["assets", "index.css"]) ∧
      Snapshot.getFile (normalizeAssets staged dist) ["assets", "index.js"] =
        lastWrite (dist.filter (fun e => jsEndsWith e.1 ".js"))
          (Snapshot.getFile staged ["assets", "index.js"]) ∧
      ∀ g, jsEndsWith g ".css" = false → jsEndsWith g ".js" = false →
        Snapshot.getFile (normalizeAssets staged dist) ["assets", g] =
          lastWrite (dist.filter (fun e => e.1 = g))
            (Snapshot.getFile staged ["assets", g]) := by
  refine ⟨normalize_getFile_css staged dist, ?_,
    fun g h1 h2 => normalize_getFile_other staged dist g h1 h2⟩
  rw [normalize_getFile_js staged dist, filter_js_eq]

/-- Witness for C2 on the spec's worked scenario, with the values evaluated:
two competing `.css` files collapse to the later one. -/
theorem normalizer_classification_witness :
    (Snapshot.getFile (normalizeAssets [] demoDist) ["assets", "logo.png"] =
        lastWrite (demoDist.filter (fun e => e.1 = "logo.png"))
          (Snapshot.getFile [] ["assets", "logo.png"])) ∧
      Snapshot.getFile (normalizeAssets [] demoDist) ["assets", "logo.png"] = some "PNG" :=
  ⟨(normalizer_classification [] demoDist).2.2 "logo.png" (by decide) (by decide), by decide⟩

/-- C3: when the BuildOutput listing (with its distinct filenames) holds
exactly one `.css` file and exactly one `.js` file, the asset directory
produced by normalizing into a fresh staged output holds exactly `index.css`
with the `.css` source's content, `index.js` with the `.js` source's content,
and each remaining source under its original name with its original content —
nothing else. -/
theorem normalizer_exact_contents (dist : List (String × String)) (ecss ejs : String × String)
    (hnd : (dist.map Prod.fst).Nodup)
    (hcss : dist.filter (fun e => jsEndsWith e.1 ".css") = [ecss])
    (hjs : dist.filter (fun e => jsEndsWith e.1 ".js") = [ejs]) :
    ∀ g c, Snapshot.getFile (normalizeAssets [] dist) ["assets", g] = some c ↔
      ((g = "index.css" ∧ c = ecss.2) ∨ (g = "index.js" ∧ c = ejs.2) ∨
        ((g, c) ∈ dist ∧ jsEndsWith g ".css" = false ∧ jsEndsWith g ".js" = false)) := by
  intro g c
  by_cases hgc : g = "index.css"
  · subst hgc
    have hval : Snapshot.getFile (normalizeAssets [] dist) ["assets", "index.css"] =
        some ecss.2 := by
      rw [normalize_getFile_css [] dist, hcss]
      rfl
    rw [hval]
    constructor
    · intro h
      exact Or.inl ⟨rfl, (Option.some.inj h).symm⟩
    · rintro (⟨-, hc⟩ | ⟨hgj, -⟩ | ⟨-, hk, -⟩)
      · rw [hc]
      · exact absurd hgj (by decide)
      · exact absurd hk (by decide)
  · by_cases hgj : g = "index.js"
    · subst hgj
      have hval : Snapshot.getFile (normalizeAssets [] dist) ["assets", "index.js"] =
          some ejs.2 := by
        rw [normalize_getFile_js [] dist, filter_js_eq, hjs]
        rfl
      rw [hval]
      constructor
      · intro h
        exact Or.inr (Or.inl ⟨rfl, (Option.some.inj h).symm⟩)
      · rintro (⟨hg, -⟩ | ⟨-, hc⟩ | ⟨-, -, hk⟩)
        · exact absurd hg (by decide)
        · rw [hc]
        · exact absurd hk (by decide)
    · by_cases hc1 : jsEndsWith g ".css" = true
      · have hval : Snapshot.getFile (normalizeAssets [] dist) ["assets", g] = none := by
          rw [normalize_getFile_untouched [] dist g (Or.inl hc1) hgc hgj]
          rfl
        rw [hval]
        constructor
        · intro h
          exact Option.noConfusion h
        · rintro (⟨hg, -⟩ | ⟨hg, -⟩ | ⟨-, hk, -⟩)
          · exact absurd hg hgc
          · exact absurd hg hgj
          · simp [hc1] at hk
      · by_cases hc2 : jsEndsWith g ".js" = true
        · have hval : Snapshot.getFile (normalizeAssets [] dist) ["assets", g] = none := by
            rw [normalize_getFile_untouched [] dist g (Or.inr hc2) hgc hgj]
            rfl
          rw [hval]
          constructor
          · intro h
            exact Option.noConfusion h
          · rintro (⟨hg, -⟩ | ⟨hg, -⟩ | ⟨-, -, hk⟩)
            · exact absurd hg hgc
            · exact absurd hg hgj
            · simp [hc2] at hk
        · simp only [Bool.not_eq_true] at hc1 hc2
          rw [normalize_getFile_other [] dist g hc1 hc2]
          constructor
          · intro h
            refine Or.inr (Or.inr ⟨?_, hc1, hc2⟩)
            obtain ⟨e, he, hec⟩ := lastWrite_eq_some _ c h
            have heg : e.1 = g := by
              have hp := List.of_mem_filter he
              simpa using hp
            have hed : e ∈ dist := List.mem_of_mem_filter he
            rw [← heg, ← hec]
            exact hed
          · rintro (⟨hg, -⟩ | ⟨hg, -⟩ | ⟨hmem, -, -⟩)
            · exact absurd hg hgc
            · exact absurd hg hgj
            · rw [filter_name_eq_of_nodup dist g c hnd hmem]
              rfl

/-- Witness for C3 on the spec's worked scenario. -/
theorem normalizer_exact_contents_witness :
    Snapshot.getFile (normalizeAssets [] demoDist) ["assets", "index.css"] = some "CSS" :=
  ((normalizer_exact_contents demoDist ("bundle.a1b2.css", "CSS") ("bundle.a1b2.js", "JS")
      (by decide) (by decide) (by decide)) "index.css" "CSS").mpr (Or.inl ⟨rfl, rfl⟩)

/-- C4: on a successful run, the produced archive is exactly the staged
directory after normalization: an entry `(p, c)` is in the archive iff the
staged directory holds the file `c` at the relative path `p` — every staged
file appears at its staged-relative path (`archive.directory(_, false)` adds
no root-name prefix, modelled by the `none` argument) and no other entries
appear. -/
theorem archive_completeness (s : FS) (tmpl : Snapshot) (dist : List (String × String))
    (h1 : s.templateSrc = some tmpl) (h2 : s.distAssets = some dist) :
    ∃ staged, (buildTheme s).1.theme = some staged ∧
      (buildTheme s).1.themeZip = some (archiveDirectory staged none) ∧
      ∀ p c, (p, c) ∈ archiveDirectory staged none ↔ Snapshot.getFile staged p = some c := by
  refine ⟨normalizeAssets (Snapshot.copyInto [] tmpl) dist, ?_, ?_, ?_⟩
  · simp [buildTheme, emptyDir, h1, h2]
  · simp [buildTheme, emptyDir, h1, h2]
  · intro p c
    have hnd : (Snapshot.paths (normalizeAssets (Snapshot.copyInto [] tmpl) dist)).Nodup :=
      nodup_paths_normalizeAssets _ dist
        (nodup_paths_copyInto [] tmpl (by simp [Snapshot.paths]))
    simpa [archiveDirectory] using mem_iff_getFile _ hnd p c

/-- Witness for C4 on the spec's worked scenario. -/
theorem archive_completeness_witness :
    ∃ staged, (buildTheme demoFS).1.theme = some staged ∧
      (buildTheme demoFS).1.themeZip = some (archiveDirectory staged none) ∧
      ∀ p c, (p, c) ∈ archiveDirectory staged none ↔ Snapshot.getFile staged p = some c :=
  archive_completeness demoFS demoTmpl demoDist rfl rfl

/-- C5, counterexample: in the archiving stage's event trace, the output
stream's closure does not precede the return of control — `await
archive.finalize()` resumes and the function returns before the `close` event
is delivered, so the stage does not block on closure confirmation. -/
theorem archiving_not_blocking_counterexample :
    ¬ occursBefore archiveStageTrace ArchiveEvent.outputClosed
      ArchiveEvent.controlReturned := by
  decide

/-- C5, amended: the success message is emitted only by the `close` handler,
hence never before the output stream reports closure; but the archiving stage
does not block on that closure — control returns before the stream closes, so
the success notification is a detached background notification. -/
theorem archiving_close_then_log_detached :
    occursBefore archiveStageTrace ArchiveEvent.outputClosed ArchiveEvent.successLogged ∧
      ¬ occursBefore archiveStageTrace ArchiveEvent.successLogged
        ArchiveEvent.outputClosed ∧
      occursBefore archiveStageTrace ArchiveEvent.controlReturned
        ArchiveEvent.outputClosed := by
  decide

/-- C6, counterexample: a write error on the archive's output stream — a
stream the script attaches no `error` listener to — does not reach the
script's `catch` block, the single top-level handler; it crashes the process
outside that handler, so not every error is propagated to it. -/
theorem output_stream_error_bypasses_handler :
    reachesTopHandler FaultPoint.outputStreamWriteError = false := by
  decide

/-- C6, amended: exactly the faults surfacing through an operation awaited
inside the `try` block are propagated unrecovered to the single top-level
handler (which logs and exits non-zero); the two stream-event faults — the
archive `error` listener's rethrow and an error on the unlistened output
stream — bypass it. -/
theorem faults_reach_handler_iff_awaited (fp : FaultPoint) :
    reachesTopHandler fp = true ↔ contextOf fp = RaiseContext.awaitedInTry := by
  cases fp <;> decide

/-- C7: the Stager is idempotent — staging the same template tree twice in
succession over the same output location yields output identical to staging it
once; indeed the prior state of the output location never influences the
result, because the location is cleared before each population. -/
theorem stager_idempotent (tmpl : Snapshot) (prior : Option Snapshot) :
    stageTemplate tmpl (stageTemplate tmpl prior) = stageTemplate tmpl prior ∧
      ∀ other : Option Snapshot, stageTemplate tmpl other = stageTemplate tmpl prior :=
  ⟨rfl, fun _ => rfl⟩

/-- C8: if the BuildOutput directory is absent (and the template tree is
present, so the run reaches the `fs.readdir` call), the pipeline exits
non-zero, the error channel gains one message that ends with the missing path
`dist/assets`, and the archive file is not created or modified — whatever was
at the archive destination before the run is still there, byte-identical. -/
theorem missing_build_output (s : FS) (tmpl : Snapshot)
    (h1 : s.templateSrc = some tmpl) (h2 : s.distAssets = none) :
    (buildTheme s).2 = some 1 ∧
      (buildTheme s).1.themeZip = s.themeZip ∧
      (buildTheme s).1.errLog = s.errLog ++ [missingDistMessage] ∧
      ∃ pre, missingDistMessage = pre ++ distAssetsPath := by
  refine ⟨?_, ?_, ?_,
    ⟨"Error building theme: Error: ENOENT: no such file or directory, scandir ", rfl⟩⟩
  all_goals simp [buildTheme, emptyDir, h1, h2]

/-- Witness for C8 at a concrete state with a stale archive. -/
theorem missing_build_output_witness :
    (buildTheme noDistFS).2 = some 1 ∧
      (buildTheme noDistFS).1.themeZip = noDistFS.themeZip ∧
      (buildTheme noDistFS).1.errLog = noDistFS.errLog ++ [missingDistMessage] ∧
      ∃ pre, missingDistMessage = pre ++ distAssetsPath :=
  missing_build_output noDistFS demoTmpl rfl rfl

/-- C9: the two read-only inputs are never mutated — after any run of the
pipeline, successful or failed, the template tree and the BuildOutput
directory are exactly as before the run (the script only reads them: it
copies files out of them and writes only under `theme/` and to
`theme.zip`). -/
theorem inputs_never_mutated (s : FS) :
    (buildTheme s).1.templateSrc = s.templateSrc ∧
      (buildTheme s).1.distAssets = s.distAssets := by
  rcases h1 : s.templateSrc with - | tmpl <;> rcases h2 : s.distAssets with - | dist <;>
    simp [buildTheme, emptyDir, h1, h2]

/-- C10 (implicit): when the BuildOutput listing holds a file whose name `g`
ends in neither `.css` nor `.js` and the staged assets directory already holds
a file of the same name (placed there by the template-tree copy), the
BuildOutput version overwrites the template version: after normalization the
staged file at `assets/g` has the BuildOutput file's content. -/
theorem build_output_overwrites_template_asset (staged : Snapshot)
    (dist : List (String × String)) (g tc bc : String)
    (hnd : (dist.map Prod.fst).Nodup)
    (hcss : jsEndsWith g ".css" = false) (hjs : jsEndsWith g ".js" = false)
    (hcol : Snapshot.getFile staged ["assets", g] = some tc)
    (hmem : (g, bc) ∈ dist) :
    Snapshot.getFile (normalizeAssets staged dist) ["assets", g] = some bc := by
  rw [normalize_getFile_other staged dist g hcss hjs,
    filter_name_eq_of_nodup dist g bc hnd hmem]
  rfl

/-- The template tree of the collision scenario for C10: it ships its own
`assets/logo.png`. -/
def tmplWithLogo : Snapshot := [(["assets", "logo.png"], "TEMPLATE-LOGO")]

/-- Witness for C10: the template's `assets/logo.png` is overwritten by the
BuildOutput `logo.png`. -/
theorem build_output_overwrites_template_asset_witness :
    Snapshot.getFile (normalizeAssets tmplWithLogo demoDist) ["assets", "logo.png"] =
      some "PNG" :=
  build_output_overwrites_template_asset tmplWithLogo demoDist "logo.png" "TEMPLATE-LOGO"
    "PNG" (by decide) (by decide) (by decide) (by decide) (by decide)

end ThemeBuild
